import Mathlib

/-!
Formal model of the blogdown incremental-build core: the item linker
(lib/item-linker.js), the list builder and expression evaluator
(lib/list.js), and the metadata store (lib/meta.js), together with
verified properties of these operations.

Items are mutable JS records; references between items are modelled as
positions (indices) into the processed sequence, and in-place mutation is
modelled by returning the updated sequence.  Accessing a field of a
missing record (for example `item.link.previous` when `item.link` is
undefined) throws in JS; such accesses are modelled with `Option`, where
`none` is the thrown `TypeError`.
-/

set_option maxHeartbeats 1000000

/-- The `meta` record of an item, as far as the linker consults it: only
`meta.fileName` is read (item-linker.js line 24). -/
structure MetaRec where
  fileName : Option String := none
deriving Repr, DecidableEq

/-- The lookup structure built by `createItemMap`: in JS it is a copy of
the items array (`Array.prototype.slice.call(items)`) that additionally
carries name-keyed properties.  It is modelled as the pair of the
positional sequence (item references, i.e. indices into the argument
list) and the name-to-reference association list. -/
structure ItemMap where
  seq : List Nat
  byName : List (String × Nat)
deriving Repr, DecidableEq

/-- The `link` record of an item.  `previous`/`next` hold `null` (`none`)
or a reference to another item of the sequence (`some` index). -/
structure LinkRec where
  previous : Option Nat := none
  next : Option Nat := none
  sibling : Option ItemMap := none
  parent : Option ItemMap := none
  child : Option ItemMap := none
deriving Repr, DecidableEq

/-- An item as seen by the linker: `meta` and `link` records, either of
which may be absent (`undefined` in JS). -/
structure Item where
  meta : Option MetaRec := none
  link : Option LinkRec := none
deriving Repr, DecidableEq

/-- JS `String.prototype.replace` with a plain-string pattern replaces
only the first occurrence; this mirrors `fileName.replace('.', '_')` of
item-linker.js line 25 on the character list. -/
def replaceFirstDotChars : List Char → List Char
  | [] => []
  | c :: cs => if c = '.' then '_' :: cs else c :: replaceFirstDotChars cs

/-- The name key used by `createItemMap`: the file name with its first
`.` replaced by `_`. -/
def replaceFirstDot (s : String) : String :=
  String.mk (replaceFirstDotChars s.data)

/-- The guard `item.meta && item.meta.fileName` of item-linker.js line
24: the name is used only when `meta` exists and `fileName` is a truthy
string (the empty string is falsy in JS). -/
def itemName (it : Item) : Option String :=
  match it.meta with
  | none => none
  | some m =>
    match m.fileName with
    | none => none
    | some n => if n = "" then none else some n

/-- JS property assignment on the map object: setting an existing key
overwrites it in place, a new key is appended. -/
def assocSet : List (String × Nat) → String → Nat → List (String × Nat)
  | [], k, v => [(k, v)]
  | (q, w) :: rest, k, v =>
    if q = k then (k, v) :: rest else (q, w) :: assocSet rest k v

/-- JS property lookup on the map object. -/
def lookupName : List (String × Nat) → String → Option Nat
  | [], _ => none
  | (q, w) :: rest, k => if q = k then some w else lookupName rest k

/-- The name-keyed entries of `createItemMap`: walking the items in
order, every item with a truthy `meta.fileName` is stored under its
normalized name (position `i` is the item's reference). -/
def addNames : List (String × Nat) → Nat → List Item → List (String × Nat)
  | acc, _, [] => acc
  | acc, i, it :: rest =>
    match itemName it with
    | none => addNames acc (i + 1) rest
    | some n => addNames (assocSet acc (replaceFirstDot n) i) (i + 1) rest

/-- `createItemMap` of item-linker.js lines 21-29: a positional copy of
the items plus name-keyed entries for items with a known file name. -/
def createItemMap (items : List Item) : ItemMap :=
  { seq := List.range items.length, byName := addNames [] 0 items }

/-- Assignment into `item.link`: fails (JS `TypeError`) when the item
carries no `link` record, otherwise updates it through `f`. -/
def setLink (f : LinkRec → LinkRec) (it : Item) : Option Item :=
  match it.link with
  | none => none
  | some l => some { it with link := some (f l) }

/-- `items.forEach` applying a position-dependent `link` update to every
item; the whole traversal fails as soon as one item lacks `link`. -/
def mapLinkIdx (f : Nat → LinkRec → LinkRec) : Nat → List Item → Option (List Item)
  | _, [] => some []
  | i, it :: rest =>
    match setLink (f i) it with
    | none => none
    | some it2 =>
      match mapLinkIdx f (i + 1) rest with
      | none => none
      | some rest2 => some (it2 :: rest2)

/-- `previousNext` of item-linker.js lines 11-18: item at index `i` gets
`link.previous = items[i-1]` (or `null` at the start) and
`link.next = items[i+1]` (or `null` at the end). -/
def previousNext (items : List Item) : Option (List Item) :=
  mapLinkIdx
    (fun i l =>
      { l with
        previous := if i = 0 then none else some (i - 1),
        next := if i = items.length - 1 then none else some (i + 1) })
    0 items

/-- `sibling` of item-linker.js lines 32-37: one map is built over the
items (in JS it is computed once before the loop; here the pure
expression denotes that same single value) and that same map is
assigned as `link.sibling` on every item. -/
def sibling (items : List Item) : Option (List Item) :=
  mapLinkIdx (fun _ l => { l with sibling := some (createItemMap items) }) 0 items

/-- `parentChild` of item-linker.js lines 40-49: every item gets the map
of the children as `link.child`, every child gets the map of the items
as `link.parent`. -/
def parentChild (items children : List Item) : Option (List Item × List Item) :=
  match mapLinkIdx (fun _ l => { l with child := some (createItemMap children) }) 0 items with
  | none => none
  | some items2 =>
    match mapLinkIdx (fun _ l => { l with parent := some (createItemMap items) }) 0 children with
    | none => none
    | some children2 => some (items2, children2)

/-!
The list builder and expression evaluator.  lib/list.js itself is not
part of the sources at hand (only its test suite src/test/list-test.js
is), so the definitions below are modelled from the specification, with
the test suite fixing the concrete behaviour where it speaks.
-/

/-- A JSON-like item property value, as resolved by dotted property
paths of sort and filter expressions. -/
inductive Value where
  | vNum (n : Int)
  | vStr (s : String)
  | vObj (fields : List (String × Value))
deriving Repr

/-- Modelled from the spec: JS stringification of a resolved value, used
by filter comparisons on "stringified values". -/
def Value.stringify : Value → String
  | .vNum n => toString n
  | .vStr s => s
  | .vObj _ => "[object Object]"

/-- Property lookup on an object value. -/
def lookupField : List (String × Value) → String → Option Value
  | [], _ => none
  | (q, w) :: rest, k => if q = k then some w else lookupField rest k

/-- Modelled from the spec: dotted traversal of a property path on a
value; the error carries the first path segment that could not be
resolved (a lookup on a non-object, or a key the object lacks, yields
`undefined` in JS). -/
def resolvePath : Value → List String → Except String Value
  | v, [] => .ok v
  | .vObj fields, s :: rest =>
    match lookupField fields s with
    | some v => resolvePath v rest
    | none => .error s
  | _, s :: _ => .error s

/-- An item as seen by the list builder: a payload value for property
resolution plus an identity tag standing for the JS object reference
(navigation locates the current item by reference identity). -/
structure PItem where
  id : Nat
  val : Value
deriving Repr

/-- The errors the list builder throws: expression syntax errors and
property resolution errors, each with its exact message. -/
inductive ListError where
  | syntaxError (msg : String)
  | resolutionError (msg : String)
deriving Repr

/-- Splitting a character list on a separator character (JS
`String.prototype.split` with a one-character string). -/
def splitOnChar (c : Char) : List Char → List (List Char)
  | [] => [[]]
  | x :: xs =>
    match splitOnChar c xs with
    | [] => [[]]
    | g :: gs => if x = c then [] :: g :: gs else (x :: g) :: gs

/-- The dot-separated segments of a property path. -/
def pathSegs (s : String) : List String :=
  (splitOnChar '.' s.data).map String.mk

/-- Modelled from the spec: whitespace tokenization of a sort
expression into path and optional direction. -/
def tokens (expr : String) : List String :=
  ((splitOnChar ' ' expr.data).map String.mk).filter (fun t => t ≠ "")

/-- Modelled from the spec: sort-expression parsing of lib/list.js.
The optional trailing direction token must be exactly `ASC` or `DESC`
(case-sensitive); anything else is the syntax error of §4.1.  Returns
the path segments and the descending flag. -/
def parseSortExpr (expr : String) : Except ListError (List String × Bool) :=
  match tokens expr with
  | [p] => .ok (pathSegs p, false)
  | [p, d] =>
    if d = "ASC" then .ok (pathSegs p, false)
    else if d = "DESC" then .ok (pathSegs p, true)
    else .error (.syntaxError
      ("Cannot sort list by \"" ++ expr ++ "\"; Illegal expression"))
  | _ => .error (.syntaxError
      ("Cannot sort list by \"" ++ expr ++ "\"; Illegal expression"))

/-- Splitting a filter expression at its first `=` or `!=` operator;
`none` when the expression carries neither operator. -/
def splitEq : List Char → Option (List Char × Bool × List Char)
  | [] => none
  | '!' :: '=' :: rest => some ([], true, rest)
  | '=' :: rest => some ([], false, rest)
  | x :: xs =>
    match splitEq xs with
    | none => none
    | some (p, n, v) => some (x :: p, n, v)

/-- Leading spaces removed. -/
def dropSpaces : List Char → List Char
  | [] => []
  | c :: cs => if c = ' ' then dropSpaces cs else c :: cs

/-- Surrounding spaces removed. -/
def trimChars (l : List Char) : List Char :=
  ((dropSpaces (dropSpaces l).reverse)).reverse

/-- Modelled from the spec: filter-expression parsing of lib/list.js.
The expression splits into `path`, `=` or `!=`, and `value`, with or
without surrounding spaces; any other shape is the syntax error of
§4.1.  Returns the path segments, the negation flag and the value. -/
def parseFilterExpr (expr : String) : Except ListError (List String × Bool × String) :=
  match splitEq expr.data with
  | none => .error (.syntaxError
      ("Cannot filter list by \"" ++ expr ++ "\"; Illegal expression"))
  | some (p, neq, v) =>
    let path := trimChars p
    let value := trimChars v
    if path = [] ∨ value = [] then
      .error (.syntaxError
        ("Cannot filter list by \"" ++ expr ++ "\"; Illegal expression"))
    else .ok ((splitOnChar '.' path).map String.mk, neq, String.mk value)

/-- Modelled from the spec: natural ordering of two resolved values
(numbers numerically, anything else by stringified comparison). -/
def valueLe (a b : Value) : Bool :=
  match a, b with
  | .vNum x, .vNum y => x ≤ y
  | _, _ => a.stringify ≤ b.stringify

/-- Stable insertion into a sorted list. -/
def insertLe (le : α → α → Bool) (x : α) : List α → List α
  | [] => [x]
  | y :: ys => if le y x then y :: insertLe le x ys else x :: y :: ys

/-- Stable insertion sort. -/
def sortLe (le : α → α → Bool) : List α → List α
  | [] => []
  | x :: xs => insertLe le x (sortLe le xs)

/-- The exact resolution-error message of §7. -/
def unknownPropMsg (kind expr s : String) : String :=
  "Cannot " ++ kind ++ " list by \"" ++ expr ++ "\"; Unknown property \"" ++ s ++ "\""

/-- Modelled from the spec: resolving the sort path on every item in
order, pairing each item with its sort key; the first item on which the
traversal fails throws the resolution error of §7. -/
def resolveKeys (expr : String) (segs : List String) :
    List PItem → Except ListError (List (Value × PItem))
  | [] => .ok []
  | it :: rest =>
    match resolvePath it.val segs with
    | .error s => .error (.resolutionError (unknownPropMsg "sort" expr s))
    | .ok v =>
      match resolveKeys expr segs rest with
      | .error e => .error e
      | .ok l => .ok ((v, it) :: l)

/-- Modelled from the spec: the sort step of `list.create`. -/
def sortList (items : List PItem) (expr : String) : Except ListError (List PItem) :=
  match parseSortExpr expr with
  | .error e => .error e
  | .ok (segs, desc) =>
    match resolveKeys expr segs items with
    | .error e => .error e
    | .ok keyed =>
      let le := fun (a b : Value × PItem) =>
        if desc then valueLe b.1 a.1 else valueLe a.1 b.1
      .ok ((sortLe le keyed).map Prod.snd)

/-- Modelled from the spec: wildcard value matching of filters — a
single leading `*` is a suffix match, a single trailing `*` a prefix
match, otherwise the comparison is exact on the stringified value. -/
def wildMatch (pat s : String) : Bool :=
  if pat.startsWith "*" then s.endsWith (pat.drop 1)
  else if pat.endsWith "*" then s.startsWith (pat.dropRight 1)
  else s = pat

/-- Modelled from the spec: the filter step of `list.create`, retaining
matching items in order with the same missing-property semantics as
sort, reported as a filter error. -/
def filterItems (expr : String) (segs : List String) (neq : Bool) (v : String) :
    List PItem → Except ListError (List PItem)
  | [] => .ok []
  | it :: rest =>
    match resolvePath it.val segs with
    | .error s => .error (.resolutionError (unknownPropMsg "filter" expr s))
    | .ok rv =>
      match filterItems expr segs neq v rest with
      | .error e => .error e
      | .ok l =>
        let m := wildMatch v rv.stringify
        .ok (if (if neq then !m else m) then it :: l else l)

/-- Modelled from the spec: filtering a list by a filter expression. -/
def filterList (items : List PItem) (expr : String) : Except ListError (List PItem) :=
  match parseFilterExpr expr with
  | .error e => .error e
  | .ok (segs, neq, v) => filterItems expr segs neq v items

/-- A list configuration: optional filter and sort expressions and an
optional limit. -/
structure ListConfig where
  filter : Option String := none
  sort : Option String := none
  limit : Option Nat := none
deriving Repr

/-- Modelled from the spec: `list.create` of lib/list.js (not in the
sources at hand) — filter, then sort, then limit, returning a new
sequence and leaving the input untouched (the model is pure, so
non-mutation of the input holds by construction). -/
def listCreate (items : List PItem) (config : ListConfig) :
    Except ListError (List PItem) :=
  match (match config.filter with
         | none => Except.ok items
         | some f => filterList items f) with
  | .error e => .error e
  | .ok l1 =>
    match (match config.sort with
           | none => Except.ok l1
           | some s => sortList l1 s) with
    | .error e => .error e
    | .ok l2 =>
      .ok (match config.limit with
           | none => l2
           | some k => l2.take k)

/-- Modelled from the spec: the reactive `nav` accessor of a created
list.  It is a function of the current context state rather than a
snapshot taken at creation: `navOf lst current` is the pair
`(nav.previous, nav.next)` observed while `context.current` holds the
item with identity `current` (or no item at all). -/
def navOf (lst : List PItem) (current : Option Nat) : Option PItem × Option PItem :=
  match current with
  | none => (none, none)
  | some c =>
    match lst.findIdx? (fun it => it.id == c) with
    | none => (none, none)
    | some i => ((if i = 0 then none else lst[i - 1]?), lst[i + 1]?)

/-- The first resolution failure over a list of items: the missing
segment reported for the first item whose traversal fails. -/
def firstResolveError (segs : List String) : List PItem → Option String
  | [] => none
  | it :: rest =>
    match resolvePath it.val segs with
    | .error s => some s
    | .ok _ => firstResolveError segs rest

/-!
The metadata store.  lib/meta.js itself is not part of the sources at
hand (only its test suite is), so `update` is modelled from the
specification (§4.4), with the test suite fixing the behaviour where it
speaks; in particular the `adds missing entry` test shows that entries
of the stored document whose path no longer occurs among the items stay
in the returned document (they are only reported as deleted).
-/

/-- A persisted per-file metadata record. -/
structure MetaEntry where
  created : String := ""
  modified : String := ""
  rendered : String := ""
  content : String := ""
  html : String := ""
deriving Repr, DecidableEq

/-- An item as seen by the metadata store: its `file.path` plus the raw
`content` and `html` texts (absent fields read as `""`). -/
structure MItem where
  path : String
  content : String := ""
  html : String := ""
deriving Repr, DecidableEq

/-- The metadata document: a path-keyed mapping in insertion order. -/
abbrev Doc := List (String × MetaEntry)

/-- Modelled from the spec: the stable content-addressing digest of
lib/meta.js (SHA-1 hex in the reference implementation).  The
properties under verification depend only on the digest being a
deterministic function of the input text, which any such digest
satisfies; the model therefore uses the text itself as its digest. -/
def digest (s : String) : String := s

/-- JS property assignment on the document object: an existing path
keeps its position, a new path is appended. -/
def docSet : Doc → String → MetaEntry → Doc
  | [], p, e => [(p, e)]
  | (q, f) :: rest, p, e =>
    if q = p then (p, e) :: rest else (q, f) :: docSet rest p e

/-- JS property lookup on the document object. -/
def docLookup : Doc → String → Option MetaEntry
  | [], _ => none
  | (q, f) :: rest, p => if q = p then some f else docLookup rest p

/-- Modelled from the spec, §4.4 step 2: the new metadata record of one
item together with its created/updated classification, diffed against
the item's entry in the stored document.  Returns the record, the
created flag and the updated flag. -/
def processItem (now : String) (oldDoc : Doc) (it : MItem) :
    MetaEntry × Bool × Bool :=
  let dc := digest it.content
  let dh := digest it.html
  match docLookup oldDoc it.path with
  | none =>
    ({ created := now, modified := now, rendered := now,
       content := dc, html := dh }, true, false)
  | some old =>
    let contentChanged := dc != old.content
    let htmlChanged := dh != old.html
    ({ created := old.created,
       modified := if contentChanged then now else old.modified,
       rendered := if contentChanged || htmlChanged then now else old.rendered,
       content := dc, html := dh },
     false, contentChanged || htmlChanged)

/-- Modelled from the spec: the diffing walk over the items, threading
the document being built and collecting the created and updated items
in order. -/
def updateItems (now : String) (oldDoc : Doc) (doc : Doc) :
    List MItem → Doc × List MItem × List MItem
  | [] => (doc, [], [])
  | it :: rest =>
    match processItem now oldDoc it with
    | (e, isC, isU) =>
      match updateItems now oldDoc (docSet doc it.path e) rest with
      | (d2, cs, us) =>
        (d2, (if isC then it :: cs else cs), (if isU then it :: us else us))

/-- The result handed to the `update` callback. -/
structure UpdateResult where
  meta : Doc
  created : List MItem
  updated : List MItem
  deleted : List String
deriving Repr, DecidableEq

/-- Modelled from the spec: `meta.update` of lib/meta.js (not in the
sources at hand), with the stored document and the current time passed
explicitly.  Every item is diffed against the stored document and
written into the returned document; stored paths carried by no item are
reported as deleted (and, per the `adds missing entry` test of
src/test/list-test.js, remain in the returned document). -/
def metaUpdate (now : String) (oldDoc : Doc) (items : List MItem) : UpdateResult :=
  let step := updateItems now oldDoc oldDoc items
  { meta := step.1,
    created := step.2.1,
    updated := step.2.2,
    deleted := (oldDoc.map Prod.fst).filter
      (fun p => decide (p ∉ items.map MItem.path)) }

/-! Helper lemmas about the linker traversals. -/

theorem setLink_isSome (f : LinkRec → LinkRec) (it : Item) :
    (setLink f it).isSome = it.link.isSome := by
  cases h : it.link <;> simp [setLink, h]

theorem mapLinkIdx_isSome (f : Nat → LinkRec → LinkRec) (items : List Item) :
    ∀ i, (mapLinkIdx f i items).isSome = items.all (fun it => it.link.isSome) := by
  induction items with
  | nil => intro i; rfl
  | cons it rest ih =>
    intro i
    have h2 := ih (i + 1)
    cases hl : it.link with
    | none => simp [mapLinkIdx, setLink, hl]
    | some l =>
      cases hr : mapLinkIdx f (i + 1) rest with
      | none =>
        rw [hr] at h2
        simp [mapLinkIdx, setLink, hl, hr, ← h2]
      | some rest2 =>
        rw [hr] at h2
        simp [mapLinkIdx, setLink, hl, hr, ← h2]

theorem mapLinkIdx_length (f : Nat → LinkRec → LinkRec) (items : List Item) :
    ∀ i res, mapLinkIdx f i items = some res → res.length = items.length := by
  induction items with
  | nil =>
    intro i res h
    simp [mapLinkIdx] at h
    rw [← h]
  | cons hd rest ih =>
    intro i res h
    cases hl : hd.link with
    | none => simp [mapLinkIdx, setLink, hl] at h
    | some l =>
      cases hr : mapLinkIdx f (i + 1) rest with
      | none => simp [mapLinkIdx, setLink, hl, hr] at h
      | some rest2 =>
        simp [mapLinkIdx, setLink, hl, hr] at h
        rw [← h]
        simp [ih (i + 1) rest2 hr]

theorem mapLinkIdx_get (f : Nat → LinkRec → LinkRec) (items : List Item) :
    ∀ i res, mapLinkIdx f i items = some res →
      ∀ (j : Nat) (it : Item), items[j]? = some it →
        ∃ l, it.link = some l ∧
          res[j]? = some { it with link := some (f (i + j) l) } := by
  induction items with
  | nil =>
    intro i res h j it hj
    simp at hj
  | cons hd rest ih =>
    intro i res h j it hj
    cases hl : hd.link with
    | none => simp [mapLinkIdx, setLink, hl] at h
    | some l =>
      cases hr : mapLinkIdx f (i + 1) rest with
      | none => simp [mapLinkIdx, setLink, hl, hr] at h
      | some rest2 =>
        simp [mapLinkIdx, setLink, hl, hr] at h
        cases j with
        | zero =>
          simp at hj
          rw [← h, ← hj]
          exact ⟨l, hl, by simp⟩
        | succ j2 =>
          simp at hj
          obtain ⟨l2, hl2, hres⟩ := ih (i + 1) rest2 hr j2 it hj
          refine ⟨l2, hl2, ?_⟩
          rw [← h]
          have harith : i + 1 + j2 = i + (j2 + 1) := by omega
          rw [harith] at hres
          simpa using hres

/-! Helper lemmas about the name-keyed lookup map. -/

theorem lookupName_assocSet_self (acc : List (String × Nat)) (k : String) (v : Nat) :
    lookupName (assocSet acc k v) k = some v := by
  induction acc with
  | nil => simp [assocSet, lookupName]
  | cons pr rest ih =>
    obtain ⟨q, w⟩ := pr
    by_cases hq : q = k
    · simp [assocSet, lookupName, hq]
    · simp [assocSet, lookupName, hq, ih]

theorem lookupName_assocSet_isSome (acc : List (String × Nat)) (q k : String) (v : Nat)
    (h : (lookupName acc k).isSome = true) :
    (lookupName (assocSet acc q v) k).isSome = true := by
  induction acc with
  | nil => simp [lookupName] at h
  | cons pr rest ih =>
    obtain ⟨p, w⟩ := pr
    by_cases hp : p = q
    · subst hp
      by_cases hk : p = k
      · simp [assocSet, lookupName, hk]
      · simp [lookupName, hk] at h
        simp [assocSet, lookupName, hk, h]
    · by_cases hk : p = k
      · subst hk
        simp [assocSet, lookupName, hp]
      · simp [lookupName, hk] at h
        simp [assocSet, lookupName, hp, hk]
        exact ih h

theorem addNames_preserve (items : List Item) :
    ∀ acc i k, (lookupName acc k).isSome = true →
      (lookupName (addNames acc i items) k).isSome = true := by
  induction items with
  | nil => intro acc i k h; simpa [addNames] using h
  | cons hd rest ih =>
    intro acc i k h
    cases hn : itemName hd with
    | none =>
      simp only [addNames, hn]
      exact ih _ _ _ h
    | some n =>
      simp only [addNames, hn]
      exact ih _ _ _ (lookupName_assocSet_isSome _ _ _ _ h)

theorem addNames_mem (items : List Item) :
    ∀ acc i it n, it ∈ items → itemName it = some n →
      (lookupName (addNames acc i items) (replaceFirstDot n)).isSome = true := by
  induction items with
  | nil => intro acc i it n hmem; simp at hmem
  | cons hd rest ih =>
    intro acc i it n hmem hname
    rcases List.mem_cons.mp hmem with heq | hmem2
    · subst heq
      simp only [addNames, hname]
      exact addNames_preserve rest _ _ _
        (by rw [lookupName_assocSet_self]; rfl)
    · cases hn : itemName hd with
      | none =>
        simp only [addNames, hn]
        exact ih _ _ _ _ hmem2 hname
      | some m =>
        simp only [addNames, hn]
        exact ih _ _ _ _ hmem2 hname

theorem addNames_metaless (items : List Item) :
    ∀ acc i, (∀ it ∈ items, it.meta = none) → addNames acc i items = acc := by
  induction items with
  | nil => intro acc i h; rfl
  | cons hd rest ih =>
    intro acc i h
    have hhd : hd.meta = none := h hd (by simp)
    have hn : itemName hd = none := by simp [itemName, hhd]
    simp only [addNames, hn]
    exact ih _ _ (fun it hit => h it (by simp [hit]))

/-! Claims about the link resolver (item-linker.js). -/

/-- C6: for every item sequence, `previousNext` gives the item at index
`i` the link field `previous = items[i-1]` (null when `i = 0`) and
`next = items[i+1]` (null when `i` is the last index), and touches no
other field: `meta` and the `sibling`, `parent` and `child` link fields
are carried over unchanged (the record update below rewrites only
`previous` and `next` of the item's own link record). -/
theorem C6_previousNext_links (items res : List Item)
    (h : previousNext items = some res) :
    res.length = items.length ∧
    ∀ (i : Nat) (it : Item), items[i]? = some it →
      ∃ l, it.link = some l ∧
        res[i]? = some { it with link := some { l with
          previous := if i = 0 then none else some (i - 1),
          next := if i = items.length - 1 then none else some (i + 1) } } := by
  refine ⟨mapLinkIdx_length _ items 0 res h, ?_⟩
  intro i it hi
  obtain ⟨l, hl, hres⟩ := mapLinkIdx_get _ items 0 res h i it hi
  exact ⟨l, hl, by simpa using hres⟩

/-- Concrete three-item run of C6. -/
def pnItems : List Item := [{ link := some {} }, { link := some {} }, { link := some {} }]

/-- The linked sequence `previousNext` produces from `pnItems`. -/
def pnRes : List Item :=
  [{ link := some { next := some 1 } },
   { link := some { previous := some 0, next := some 2 } },
   { link := some { previous := some 1 } }]

/-- Witness for C6: the three-item sequence evaluates as claimed. -/
theorem C6_witness :
    previousNext pnItems = some pnRes ∧
    (pnRes.length = pnItems.length ∧
     ∀ (i : Nat) (it : Item), pnItems[i]? = some it →
       ∃ l, it.link = some l ∧
         pnRes[i]? = some { it with link := some { l with
           previous := if i = 0 then none else some (i - 1),
           next := if i = pnItems.length - 1 then none else some (i + 1) } }) :=
  ⟨by decide, C6_previousNext_links pnItems pnRes (by decide)⟩

/-- C3 counterexample: the claim states that every `.` in
`meta.fileName` is normalized to `_` in the map's name key, but JS
`replace('.', '_')` with a string pattern replaces only the first
occurrence, so an item named `a.b.c` is keyed `a_b.c`, not `a_b_c`, in
the sibling map: the fully normalized key is absent. -/
theorem C3_counterexample :
    lookupName (createItemMap
      [{ meta := some { fileName := some "a.b.c" }, link := some {} }]).byName
      "a_b_c" = none ∧
    lookupName (createItemMap
      [{ meta := some { fileName := some "a.b.c" }, link := some {} }]).byName
      "a_b.c" = some 0 ∧
    sibling [{ meta := some { fileName := some "a.b.c" }, link := some {} }] =
      some [{ meta := some { fileName := some "a.b.c" },
              link := some { sibling := some ⟨[0], [("a_b.c", 0)]⟩ } }] :=
  ⟨by decide, by decide, by decide⟩

/-- C3 (amended: only the first `.` of the file name is normalized to
`_`, as JS string replace does): `sibling` builds one lookup structure
over the items — positionally indexed (its sequence is the item
references in order) with a name key for every item whose
`meta.fileName` is known, the key being the name with its first `.`
replaced by `_` — and assigns that same structure as `link.sibling` on
every item, touching nothing else. -/
theorem C3_sibling_shared_map (items res : List Item)
    (h : sibling items = some res) :
    res.length = items.length ∧
    (∀ (i : Nat) (it : Item), items[i]? = some it →
      ∃ l, it.link = some l ∧
        res[i]? =
          some { it with link := some { l with sibling := some (createItemMap items) } }) ∧
    (createItemMap items).seq = List.range items.length ∧
    (∀ it ∈ items, ∀ n, itemName it = some n →
      (lookupName (createItemMap items).byName (replaceFirstDot n)).isSome = true) := by
  refine ⟨mapLinkIdx_length _ items 0 res h, ?_, rfl, ?_⟩
  · intro i it hi
    obtain ⟨l, hl, hres⟩ := mapLinkIdx_get _ items 0 res h i it hi
    exact ⟨l, hl, hres⟩
  · intro it hmem n hname
    exact addNames_mem items [] 0 it n hmem hname

/-- Concrete two-item run of C3: distinct file names keyed by their
first-dot-normalized form, one shared map on both items. -/
def sibItems : List Item :=
  [{ meta := some { fileName := some "a.md" }, link := some {} },
   { meta := some { fileName := some "b.md" }, link := some {} }]

/-- The sibling map built over `sibItems`. -/
def sibMap : ItemMap :=
  { seq := [0, 1], byName := [("a_md", 0), ("b_md", 1)] }

/-- The sequence `sibling` produces from `sibItems`. -/
def sibRes : List Item :=
  [{ meta := some { fileName := some "a.md" }, link := some { sibling := some sibMap } },
   { meta := some { fileName := some "b.md" }, link := some { sibling := some sibMap } }]

/-- Witness for C3: the two-item sequence evaluates as claimed. -/
theorem C3_witness :
    sibling sibItems = some sibRes ∧
    (sibRes.length = sibItems.length ∧
     (∀ (i : Nat) (it : Item), sibItems[i]? = some it →
       ∃ l, it.link = some l ∧
         sibRes[i]? =
           some { it with link := some { l with sibling := some (createItemMap sibItems) } }) ∧
     (createItemMap sibItems).seq = List.range sibItems.length ∧
     (∀ it ∈ sibItems, ∀ n, itemName it = some n →
       (lookupName (createItemMap sibItems).byName (replaceFirstDot n)).isSome = true)) :=
  ⟨by decide, C3_sibling_shared_map sibItems sibRes (by decide)⟩

/-- C10: the three linker operations assign into each item's existing
`link` record and never create it, so each succeeds exactly when every
item of its argument sequences carries a `link` record; `meta` is never
required — items without `meta` (hence without `meta.fileName`) are
handled and simply contribute no name key to the lookup map. -/
theorem C10_link_precondition (items children metaless : List Item)
    (h : ∀ it ∈ metaless, it.meta = none) :
    (previousNext items).isSome = items.all (fun it => it.link.isSome) ∧
    (sibling items).isSome = items.all (fun it => it.link.isSome) ∧
    (parentChild items children).isSome =
      (items.all (fun it => it.link.isSome) &&
       children.all (fun it => it.link.isSome)) ∧
    (createItemMap metaless).byName = [] := by
  refine ⟨mapLinkIdx_isSome _ items 0, mapLinkIdx_isSome _ items 0, ?_, ?_⟩
  · cases hA : mapLinkIdx
        (fun _ l => { l with child := some (createItemMap children) }) 0 items with
    | none =>
      have h1 := mapLinkIdx_isSome
        (fun _ l => { l with child := some (createItemMap children) }) items 0
      rw [hA] at h1
      simp [parentChild, hA, ← h1]
    | some items2 =>
      have h1 := mapLinkIdx_isSome
        (fun _ l => { l with child := some (createItemMap children) }) items 0
      rw [hA] at h1
      cases hB : mapLinkIdx
          (fun _ l => { l with parent := some (createItemMap items) }) 0 children with
      | none =>
        have h2 := mapLinkIdx_isSome
          (fun _ l => { l with parent := some (createItemMap items) }) children 0
        rw [hB] at h2
        simp [parentChild, hA, hB, ← h1, ← h2]
      | some children2 =>
        have h2 := mapLinkIdx_isSome
          (fun _ l => { l with parent := some (createItemMap items) }) children 0
        rw [hB] at h2
        simp [parentChild, hA, hB, ← h1, ← h2]
  · rw [createItemMap, addNames_metaless metaless [] 0 h]

/-- Witness for C10: a sequence with links but no meta records links
fine in every operation, and its lookup map carries no name key. -/
theorem C10_witness :
    (∀ it ∈ [({ link := some {} } : Item), { link := some {} }], it.meta = none) ∧
    (previousNext [({ link := some {} } : Item), { link := some {} }]).isSome = true ∧
    (sibling [({ link := some {} } : Item), { link := some {} }]).isSome = true ∧
    (parentChild [({ link := some {} } : Item), { link := some {} }]
      [({ link := some {} } : Item), { link := some {} }]).isSome = true ∧
    (createItemMap [({ link := some {} } : Item), { link := some {} }]).byName = [] ∧
    (previousNext [({ meta := some {} } : Item)]).isSome = false := by
  have h := C10_link_precondition
    [({ link := some {} } : Item), { link := some {} }]
    [({ link := some {} } : Item), { link := some {} }]
    [({ link := some {} } : Item), { link := some {} }]
    (by decide)
  refine ⟨by decide, ?_, ?_, ?_, h.2.2.2, by decide⟩
  · rw [h.1]; decide
  · rw [h.2.1]; decide
  · rw [h.2.2.1]; decide

/-! Helper lemmas about expression evaluation over lists. -/

theorem resolvePath_error_mem (segs : List String) :
    ∀ (v : Value) (s : String), resolvePath v segs = .error s → s ∈ segs := by
  induction segs with
  | nil => intro v s h; simp [resolvePath] at h
  | cons seg rest ih =>
    intro v s h
    cases v with
    | vObj fields =>
      cases hf : lookupField fields seg with
      | some w =>
        simp [resolvePath, hf] at h
        exact List.mem_cons_of_mem _ (ih w s h)
      | none =>
        simp [resolvePath, hf] at h
        simp [h]
    | vNum n =>
      simp [resolvePath] at h
      simp [h]
    | vStr str =>
      simp [resolvePath] at h
      simp [h]

theorem firstResolveError_mem (segs : List String) :
    ∀ (items : List PItem) (s : String),
      firstResolveError segs items = some s → s ∈ segs := by
  intro items
  induction items with
  | nil => intro s h; simp [firstResolveError] at h
  | cons it rest ih =>
    intro s h
    cases hr : resolvePath it.val segs with
    | error u =>
      simp [firstResolveError, hr] at h
      rw [← h]
      exact resolvePath_error_mem segs it.val u hr
    | ok v =>
      simp [firstResolveError, hr] at h
      exact ih s h

theorem resolveKeys_error (expr : String) (segs : List String) :
    ∀ (items : List PItem) (s : String),
      firstResolveError segs items = some s →
      resolveKeys expr segs items =
        .error (.resolutionError (unknownPropMsg "sort" expr s)) := by
  intro items
  induction items with
  | nil => intro s h; simp [firstResolveError] at h
  | cons it rest ih =>
    intro s h
    cases hr : resolvePath it.val segs with
    | error u =>
      simp [firstResolveError, hr] at h
      rw [← h]
      simp [resolveKeys, hr]
    | ok v =>
      simp [firstResolveError, hr] at h
      simp [resolveKeys, hr, ih s h]

theorem filterItems_error (expr : String) (segs : List String) (neq : Bool) (v : String) :
    ∀ (items : List PItem) (s : String),
      firstResolveError segs items = some s →
      filterItems expr segs neq v items =
        .error (.resolutionError (unknownPropMsg "filter" expr s)) := by
  intro items
  induction items with
  | nil => intro s h; simp [firstResolveError] at h
  | cons it rest ih =>
    intro s h
    cases hr : resolvePath it.val segs with
    | error u =>
      simp [firstResolveError, hr] at h
      rw [← h]
      simp [filterItems, hr]
    | ok w =>
      simp [firstResolveError, hr] at h
      simp [filterItems, hr, ih s h]

/-! Claims about the list builder and expression evaluator (lib/list.js,
modelled from the spec). -/

/-- C8: `create` with a configuration carrying no filter, no sort and
no limit returns the input sequence itself, in order.  The model is
pure, so the input sequence is not mutated by construction (the JS
contract that the caller's array is left untouched). -/
theorem C8_create_identity (items : List PItem) :
    listCreate items { filter := none, sort := none, limit := none } = .ok items := rfl

/-- C7: a sort expression whose trailing direction token is neither the
exact string `ASC` nor `DESC` (case-sensitively) makes evaluation throw
the syntax error with the exact message
`Cannot sort list by "<expr>"; Illegal expression`. -/
theorem C7_sort_direction (expr p d : String) (items : List PItem)
    (htok : tokens expr = [p, d]) (hA : d ≠ "ASC") (hD : d ≠ "DESC") :
    listCreate items { sort := some expr } =
      .error (.syntaxError ("Cannot sort list by \"" ++ expr ++ "\"; Illegal expression")) := by
  have hp : parseSortExpr expr =
      .error (.syntaxError ("Cannot sort list by \"" ++ expr ++ "\"; Illegal expression")) := by
    simp [parseSortExpr, htok, hA, hD]
  simp [listCreate, sortList, hp]

/-- Witness for C7: sorting by `a FOO` fails with the exact message. -/
theorem C7_witness :
    tokens "a FOO" = ["a", "FOO"] ∧
    listCreate ([] : List PItem) { sort := some "a FOO" } =
      .error (.syntaxError "Cannot sort list by \"a FOO\"; Illegal expression") :=
  ⟨by decide, C7_sort_direction "a FOO" "a" "FOO" [] (by decide) (by decide) (by decide)⟩

/-- C4: when the dotted property path of a sort (or filter) expression
cannot be fully resolved on an item, evaluation throws the resolution
error `Cannot <sort|filter> list by "<expr>"; Unknown property
"<segment>"`, where the named segment is the first path segment that
could not be resolved — a member of the path's segment list, not the
whole path. -/
theorem C4_unknown_property
    (sexpr fexpr : String) (ssegs fsegs : List String)
    (sdesc fneq : Bool) (fval : String)
    (sitems fitems : List PItem) (s t : String)
    (hsp : parseSortExpr sexpr = .ok (ssegs, sdesc))
    (hse : firstResolveError ssegs sitems = some s)
    (hfp : parseFilterExpr fexpr = .ok (fsegs, fneq, fval))
    (hfe : firstResolveError fsegs fitems = some t) :
    (listCreate sitems { sort := some sexpr } =
      .error (.resolutionError (unknownPropMsg "sort" sexpr s)) ∧ s ∈ ssegs) ∧
    (listCreate fitems { filter := some fexpr } =
      .error (.resolutionError (unknownPropMsg "filter" fexpr t)) ∧ t ∈ fsegs) := by
  constructor
  · refine ⟨?_, firstResolveError_mem ssegs sitems s hse⟩
    have h1 := resolveKeys_error sexpr ssegs sitems s hse
    simp [listCreate, sortList, hsp, h1]
  · refine ⟨?_, firstResolveError_mem fsegs fitems t hfe⟩
    have h2 := filterItems_error fexpr fsegs fneq fval fitems t hfe
    simp [listCreate, filterList, hfp, h2]

/-- Witness for C4: sorting `[{a: {b: 1}}]` by `a.b.c` and filtering it
by `a.c = 5` both fail naming the segment `c`, not the whole path. -/
theorem C4_witness :
    parseSortExpr "a.b.c" = .ok (["a", "b", "c"], false) ∧
    firstResolveError ["a", "b", "c"]
      [⟨0, .vObj [("a", .vObj [("b", .vNum 1)])]⟩] = some "c" ∧
    parseFilterExpr "a.c = 5" = .ok (["a", "c"], false, "5") ∧
    firstResolveError ["a", "c"]
      [⟨0, .vObj [("a", .vObj [("b", .vNum 1)])]⟩] = some "c" ∧
    ((listCreate [⟨0, .vObj [("a", .vObj [("b", .vNum 1)])]⟩] { sort := some "a.b.c" } =
        .error (.resolutionError (unknownPropMsg "sort" "a.b.c" "c")) ∧
      "c" ∈ ["a", "b", "c"]) ∧
     (listCreate [⟨0, .vObj [("a", .vObj [("b", .vNum 1)])]⟩] { filter := some "a.c = 5" } =
        .error (.resolutionError (unknownPropMsg "filter" "a.c = 5" "c")) ∧
      "c" ∈ ["a", "c"])) :=
  ⟨by rfl, by rfl, by rfl, by rfl,
   C4_unknown_property "a.b.c" "a.c = 5" ["a", "b", "c"] ["a", "c"] false false "5"
     [⟨0, .vObj [("a", .vObj [("b", .vNum 1)])]⟩]
     [⟨0, .vObj [("a", .vObj [("b", .vNum 1)])]⟩]
     "c" "c" (by rfl) (by rfl) (by rfl) (by rfl)⟩

/-- C5: for a list produced by `create`, both nav pointers are null
while the context designates no current item; while the current item is
the list element at index `i`, `nav.previous` is the element at `i - 1`
(null when `i = 0`) and `nav.next` the element at `i + 1` (null when
`i` is the last index).  `navOf` is a function of the current context
state, evaluated at observation time, so the pointers follow every
change of `context.current` instead of being snapshotted at creation. -/
theorem C5_nav (items lst : List PItem) (cfg : ListConfig) (c i : Nat)
    (hcreate : listCreate items cfg = .ok lst)
    (hfind : lst.findIdx? (fun it => it.id == c) = some i) :
    navOf lst none = (none, none) ∧
    navOf lst (some c) = ((if i = 0 then none else lst[i - 1]?), lst[i + 1]?) := by
  refine ⟨rfl, ?_⟩
  simp [navOf, hfind]

/-- Concrete three-item list for C5. -/
def navItems : List PItem := [⟨1, .vNum 1⟩, ⟨2, .vNum 2⟩, ⟨3, .vNum 3⟩]

/-- Witness for C5: with the middle item current, previous and next are
the first and last items; with no current item both are null. -/
theorem C5_witness :
    listCreate navItems { filter := none, sort := none, limit := none } = .ok navItems ∧
    navItems.findIdx? (fun it => it.id == 2) = some 1 ∧
    (navOf navItems none = (none, none) ∧
     navOf navItems (some 2) =
       ((if 1 = 0 then none else navItems[0]?), navItems[2]?)) :=
  ⟨by rfl, by rfl,
   C5_nav navItems navItems { filter := none, sort := none, limit := none } 2 1
     (by rfl) (by rfl)⟩

/-! Helper lemmas about the metadata document. -/

theorem docLookup_docSet_self (d : Doc) (p : String) (e : MetaEntry) :
    docLookup (docSet d p e) p = some e := by
  induction d with
  | nil => simp [docSet, docLookup]
  | cons pr rest ih =>
    obtain ⟨q, f⟩ := pr
    by_cases hq : q = p
    · simp [docSet, docLookup, hq]
    · simp [docSet, docLookup, hq, ih]

theorem docLookup_docSet_ne (d : Doc) (p q : String) (e : MetaEntry) (h : q ≠ p) :
    docLookup (docSet d p e) q = docLookup d q := by
  have hpq : p ≠ q := fun hh => h hh.symm
  induction d with
  | nil => simp [docSet, docLookup, hpq]
  | cons pr rest ih =>
    obtain ⟨r, f⟩ := pr
    by_cases hr : r = p
    · subst hr
      simp [docSet, docLookup, hpq]
    · simp only [docSet, if_neg hr]
      by_cases hq : r = q
      · simp [docLookup, hq]
      · simp only [docLookup, if_neg hq]
        exact ih

theorem updateItems_cons_fst (now : String) (old doc : Doc) (it : MItem)
    (rest : List MItem) :
    (updateItems now old doc (it :: rest)).1 =
      (updateItems now old (docSet doc it.path (processItem now old it).1) rest).1 := by
  rcases hpi : processItem now old it with ⟨e, isC, isU⟩
  rcases hstep : updateItems now old (docSet doc it.path e) rest with ⟨d2, cs, us⟩
  simp [updateItems, hpi, hstep]

theorem updateItems_cons_created (now : String) (old doc : Doc) (it : MItem)
    (rest : List MItem) :
    (updateItems now old doc (it :: rest)).2.1 =
      (if (processItem now old it).2.1
       then it :: (updateItems now old (docSet doc it.path (processItem now old it).1) rest).2.1
       else (updateItems now old (docSet doc it.path (processItem now old it).1) rest).2.1) := by
  rcases hpi : processItem now old it with ⟨e, isC, isU⟩
  rcases hstep : updateItems now old (docSet doc it.path e) rest with ⟨d2, cs, us⟩
  simp [updateItems, hpi, hstep]

theorem updateItems_cons_updated (now : String) (old doc : Doc) (it : MItem)
    (rest : List MItem) :
    (updateItems now old doc (it :: rest)).2.2 =
      (if (processItem now old it).2.2
       then it :: (updateItems now old (docSet doc it.path (processItem now old it).1) rest).2.2
       else (updateItems now old (docSet doc it.path (processItem now old it).1) rest).2.2) := by
  rcases hpi : processItem now old it with ⟨e, isC, isU⟩
  rcases hstep : updateItems now old (docSet doc it.path e) rest with ⟨d2, cs, us⟩
  simp [updateItems, hpi, hstep]

theorem updateItems_preserve (now : String) (old : Doc) :
    ∀ (items : List MItem) (doc : Doc) (p : String),
      (∀ r ∈ items, r.path ≠ p) →
      docLookup (updateItems now old doc items).1 p = docLookup doc p := by
  intro items
  induction items with
  | nil => intro doc p h; rfl
  | cons it rest ih =>
    intro doc p h
    have hit : it.path ≠ p := h it (by simp)
    have hrest : ∀ r ∈ rest, r.path ≠ p := fun r hr => h r (by simp [hr])
    rw [updateItems_cons_fst, ih _ p hrest]
    exact docLookup_docSet_ne doc it.path p _ (Ne.symm hit)

theorem updateItems_new_entry (now : String) (old : Doc) :
    ∀ (items : List MItem) (doc : Doc) (p : String),
      docLookup old p = none →
      (∃ j ∈ items, j.path = p) →
      ∃ e, docLookup (updateItems now old doc items).1 p = some e ∧
        e.created = now ∧ e.modified = now ∧ e.rendered = now := by
  intro items
  induction items with
  | nil =>
    intro doc p hold hex
    simp at hex
  | cons it rest ih =>
    intro doc p hold hex
    rw [updateItems_cons_fst]
    by_cases hrest : ∃ j ∈ rest, j.path = p
    · exact ih _ p hold hrest
    · have hhead : it.path = p := by
        rcases hex with ⟨j, hj, hjp⟩
        rcases List.mem_cons.mp hj with rfl | hjr
        · exact hjp
        · exact absurd ⟨j, hjr, hjp⟩ hrest
      have hpres : ∀ r ∈ rest, r.path ≠ p := by
        intro r hr hrp
        exact hrest ⟨r, hr, hrp⟩
      rw [updateItems_preserve now old rest _ p hpres, hhead,
        docLookup_docSet_self]
      have hpe : (processItem now old it).1 =
          { created := now, modified := now, rendered := now,
            content := digest it.content, html := digest it.html } := by
        simp [processItem, hhead, hold]
      rw [hpe]
      exact ⟨_, rfl, rfl, rfl, rfl⟩

theorem updateItems_created_mem (now : String) (old : Doc) :
    ∀ (items : List MItem) (doc : Doc) (it : MItem),
      it ∈ items → docLookup old it.path = none →
      it ∈ (updateItems now old doc items).2.1 := by
  intro items
  induction items with
  | nil => intro doc it h; simp at h
  | cons hd rest ih =>
    intro doc it hmem hold
    rw [updateItems_cons_created]
    rcases List.mem_cons.mp hmem with rfl | hmem2
    · have hc : (processItem now old it).2.1 = true := by
        simp [processItem, hold]
      simp [hc]
    · by_cases hc : (processItem now old hd).2.1 = true
      · rw [if_pos hc]
        exact List.mem_cons_of_mem _ (ih _ it hmem2 hold)
      · rw [if_neg hc]
        exact ih _ it hmem2 hold

theorem updateItems_updated_not_mem (now : String) (old : Doc) :
    ∀ (items : List MItem) (doc : Doc) (it : MItem),
      docLookup old it.path = none →
      it ∉ (updateItems now old doc items).2.2 := by
  intro items
  induction items with
  | nil =>
    intro doc it hold h
    simp [updateItems] at h
  | cons hd rest ih =>
    intro doc it hold h
    rw [updateItems_cons_updated] at h
    by_cases hu : (processItem now old hd).2.2 = true
    · rw [if_pos hu] at h
      rcases List.mem_cons.mp h with rfl | h2
      · have : (processItem now old it).2.2 = false := by
          simp [processItem, hold]
        rw [this] at hu
        exact Bool.false_ne_true hu
      · exact ih _ it hold h2
    · rw [if_neg hu] at h
      exact ih _ it hold h

theorem updateItems_nodup_lookup (now : String) (old : Doc) :
    ∀ (items : List MItem) (doc : Doc) (it : MItem),
      (items.map MItem.path).Nodup → it ∈ items →
      docLookup (updateItems now old doc items).1 it.path =
        some (processItem now old it).1 := by
  intro items
  induction items with
  | nil => intro doc it hnd h; simp at h
  | cons hd rest ih =>
    intro doc it hnd hmem
    rw [List.map_cons, List.nodup_cons] at hnd
    obtain ⟨hnotin, hndrest⟩ := hnd
    rw [updateItems_cons_fst]
    rcases List.mem_cons.mp hmem with rfl | hmem2
    · have hpres : ∀ r ∈ rest, r.path ≠ it.path := by
        intro r hr hrp
        exact hnotin (hrp ▸ List.mem_map_of_mem MItem.path hr)
      rw [updateItems_preserve now old rest _ it.path hpres]
      exact docLookup_docSet_self doc it.path _
    · exact ih _ it hndrest hmem2

theorem processItem_digests (now : String) (old : Doc) (it : MItem) :
    (processItem now old it).1.content = digest it.content ∧
    (processItem now old it).1.html = digest it.html := by
  cases h : docLookup old it.path <;> simp [processItem, h]

theorem processItem_unchanged (now : String) (old : Doc) (it : MItem) (e : MetaEntry)
    (h : docLookup old it.path = some e)
    (hc : e.content = digest it.content) (hh : e.html = digest it.html) :
    processItem now old it = (e, false, false) := by
  obtain ⟨c, m, r, co, ht⟩ := e
  simp only [MetaEntry.mk.injEq] at hc hh
  subst hc
  subst hh
  simp [processItem, h]

theorem updateItems_clean (now : String) (old : Doc) :
    ∀ (items : List MItem) (doc : Doc),
      (∀ it ∈ items, (processItem now old it).2.1 = false ∧
        (processItem now old it).2.2 = false) →
      (updateItems now old doc items).2.1 = [] ∧
        (updateItems now old doc items).2.2 = [] := by
  intro items
  induction items with
  | nil => intro doc h; exact ⟨rfl, rfl⟩
  | cons hd rest ih =>
    intro doc h
    have hhd := h hd (by simp)
    have hrest : ∀ it ∈ rest, (processItem now old it).2.1 = false ∧
        (processItem now old it).2.2 = false :=
      fun it hit => h it (by simp [hit])
    constructor
    · rw [updateItems_cons_created, if_neg (by simp [hhd.1])]
      exact (ih _ hrest).1
    · rw [updateItems_cons_updated, if_neg (by simp [hhd.2])]
      exact (ih _ hrest).2

/-! Claims about the metadata store (lib/meta.js, modelled from the spec
and its test suite). -/

/-- C1: an item whose `file.path` has no entry in the previously stored
document is reported in `created` and never in `updated`, and the
returned document's record for its path has `created`, `modified` and
`rendered` all set to the current timestamp of the call. -/
theorem C1_meta_created (now : String) (oldDoc : Doc) (items : List MItem)
    (it : MItem) (hin : it ∈ items) (hnew : docLookup oldDoc it.path = none) :
    it ∈ (metaUpdate now oldDoc items).created ∧
    it ∉ (metaUpdate now oldDoc items).updated ∧
    ∃ e, docLookup (metaUpdate now oldDoc items).meta it.path = some e ∧
      e.created = now ∧ e.modified = now ∧ e.rendered = now :=
  ⟨updateItems_created_mem now oldDoc items oldDoc it hin hnew,
   updateItems_updated_not_mem now oldDoc items oldDoc it hnew,
   updateItems_new_entry now oldDoc items oldDoc it.path hnew ⟨it, hin, rfl⟩⟩

/-- Witness for C1: a single brand-new item at time `t`. -/
theorem C1_witness :
    (⟨"x", "c", "h"⟩ : MItem) ∈ [(⟨"x", "c", "h"⟩ : MItem)] ∧
    docLookup [] "x" = none ∧
    ((⟨"x", "c", "h"⟩ : MItem) ∈ (metaUpdate "t" [] [⟨"x", "c", "h"⟩]).created ∧
     (⟨"x", "c", "h"⟩ : MItem) ∉ (metaUpdate "t" [] [⟨"x", "c", "h"⟩]).updated ∧
     ∃ e, docLookup (metaUpdate "t" [] [⟨"x", "c", "h"⟩]).meta "x" = some e ∧
       e.created = "t" ∧ e.modified = "t" ∧ e.rendered = "t") :=
  ⟨by decide, by decide,
   C1_meta_created "t" [] [⟨"x", "c", "h"⟩] ⟨"x", "c", "h"⟩ (by decide) (by decide)⟩

/-- C2 counterexample: with the stored document carrying only the path
`old` and the items carrying only the path `new`, the path `old` is
reported in `deleted` yet its entry is still present in the returned
document — the claim's "absent from the returned document" fails (the
`adds missing entry` test of src/test/list-test.js demands exactly this
retention). -/
theorem C2_counterexample :
    "old" ∈ (metaUpdate "t" [("old", {})] [{ path := "new" }]).deleted ∧
    docLookup (metaUpdate "t" [("old", {})] [{ path := "new" }]).meta "old" =
      some {} :=
  ⟨by decide, by decide⟩

/-- C2 (amended: the stale path is reported in `deleted` but its entry
remains in the returned document, carried over unchanged): every path
key present in the previously stored document but carried by no item in
the new items list is reported in the callback's `deleted` list as a
path string, for every prior document and every items list. -/
theorem C2_deleted_reported (now : String) (oldDoc : Doc) (items : List MItem)
    (p : String) (hold : p ∈ oldDoc.map Prod.fst)
    (hnot : p ∉ items.map MItem.path) :
    p ∈ (metaUpdate now oldDoc items).deleted ∧
    docLookup (metaUpdate now oldDoc items).meta p = docLookup oldDoc p := by
  constructor
  · show p ∈ (oldDoc.map Prod.fst).filter (fun q => decide (q ∉ items.map MItem.path))
    rw [List.mem_filter]
    exact ⟨hold, by simpa using hnot⟩
  · have hpres : ∀ r ∈ items, r.path ≠ p := by
      intro r hr hrp
      exact hnot (hrp ▸ List.mem_map_of_mem MItem.path hr)
    exact updateItems_preserve now oldDoc items oldDoc p hpres

/-- Witness for C2: one stored path, no items. -/
theorem C2_witness :
    "some/path" ∈ [("some/path", (⟨"", "", "", "dc", "dh"⟩ : MetaEntry))].map Prod.fst ∧
    "some/path" ∉ ([] : List MItem).map MItem.path ∧
    ("some/path" ∈
      (metaUpdate "t" [("some/path", ⟨"", "", "", "dc", "dh"⟩)] []).deleted ∧
     docLookup (metaUpdate "t" [("some/path", ⟨"", "", "", "dc", "dh"⟩)] []).meta
        "some/path" =
      docLookup [("some/path", ⟨"", "", "", "dc", "dh"⟩)] "some/path") :=
  ⟨by decide, by decide,
   C2_deleted_reported "t" [("some/path", ⟨"", "", "", "dc", "dh"⟩)] [] "some/path"
     (by decide) (by decide)⟩

/-- Items with a duplicated path: the stored entry for `p` keeps only
the digest of the last of them, so the next run flags the first one as
updated. -/
def dupItems : List MItem := [⟨"p", "a", ""⟩, ⟨"p", "b", ""⟩]

/-- C9 counterexample: for an items list in which two items share one
path with different contents, the second `update` call on the stored
result reports a non-empty `updated` list, so the claim fails as
universally stated. -/
theorem C9_counterexample :
    (metaUpdate "t2" (metaUpdate "t1" [] dupItems).meta dupItems).updated =
      [⟨"p", "a", ""⟩] ∧
    ((metaUpdate "t2" (metaUpdate "t1" [] dupItems).meta dupItems).updated ≠ []) :=
  ⟨by decide, by decide⟩

/-- C9 (amended: for items whose paths are pairwise distinct): calling
`update` twice in succession with identical items and no content or
html change in between yields empty `created` and `updated` lists on
the second call, and the second call carries every item's stored
document entry — its `modified` and `rendered` timestamps included —
over unchanged. -/
theorem C9_update_idempotent (now1 now2 : String) (oldDoc : Doc)
    (items : List MItem) (hnd : (items.map MItem.path).Nodup) :
    (metaUpdate now2 (metaUpdate now1 oldDoc items).meta items).created = [] ∧
    (metaUpdate now2 (metaUpdate now1 oldDoc items).meta items).updated = [] ∧
    ∀ it ∈ items,
      docLookup (metaUpdate now2 (metaUpdate now1 oldDoc items).meta items).meta
          it.path =
        docLookup (metaUpdate now1 oldDoc items).meta it.path := by
  have hlook1 : ∀ it ∈ items,
      docLookup (metaUpdate now1 oldDoc items).meta it.path =
        some (processItem now1 oldDoc it).1 := by
    intro it hit
    exact updateItems_nodup_lookup now1 oldDoc items oldDoc it hnd hit
  have hproc2 : ∀ it ∈ items,
      processItem now2 (metaUpdate now1 oldDoc items).meta it =
        ((processItem now1 oldDoc it).1, false, false) := by
    intro it hit
    have hd := processItem_digests now1 oldDoc it
    exact processItem_unchanged now2 _ it _ (hlook1 it hit) hd.1 hd.2
  have hclean := updateItems_clean now2 (metaUpdate now1 oldDoc items).meta items
    (metaUpdate now1 oldDoc items).meta
    (fun it hit => ⟨by rw [hproc2 it hit], by rw [hproc2 it hit]⟩)
  refine ⟨hclean.1, hclean.2, ?_⟩
  intro it hit
  have h2 := updateItems_nodup_lookup now2 (metaUpdate now1 oldDoc items).meta items
    (metaUpdate now1 oldDoc items).meta it hnd hit
  rw [hproc2 it hit] at h2
  show docLookup (updateItems now2 (metaUpdate now1 oldDoc items).meta
      (metaUpdate now1 oldDoc items).meta items).1 it.path =
    docLookup (metaUpdate now1 oldDoc items).meta it.path
  rw [h2, hlook1 it hit]

/-- Witness for C9: two distinct-path items run through two successive
updates. -/
theorem C9_witness :
    ([(⟨"x", "c", "h"⟩ : MItem), ⟨"y", "d", "i"⟩].map MItem.path).Nodup ∧
    ((metaUpdate "t2" (metaUpdate "t1" [] [⟨"x", "c", "h"⟩, ⟨"y", "d", "i"⟩]).meta
        [⟨"x", "c", "h"⟩, ⟨"y", "d", "i"⟩]).created = [] ∧
     (metaUpdate "t2" (metaUpdate "t1" [] [⟨"x", "c", "h"⟩, ⟨"y", "d", "i"⟩]).meta
        [⟨"x", "c", "h"⟩, ⟨"y", "d", "i"⟩]).updated = [] ∧
     ∀ it ∈ [(⟨"x", "c", "h"⟩ : MItem), ⟨"y", "d", "i"⟩],
       docLookup (metaUpdate "t2"
           (metaUpdate "t1" [] [⟨"x", "c", "h"⟩, ⟨"y", "d", "i"⟩]).meta
           [⟨"x", "c", "h"⟩, ⟨"y", "d", "i"⟩]).meta it.path =
         docLookup (metaUpdate "t1" [] [⟨"x", "c", "h"⟩, ⟨"y", "d", "i"⟩]).meta
           it.path) :=
  ⟨by decide,
   C9_update_idempotent "t1" "t2" [] [⟨"x", "c", "h"⟩, ⟨"y", "d", "i"⟩] (by decide)⟩
